import Mathlib

/-!
Verification of the BDA_FinalProject harvesting scripts.

The repository consists of three Python scripts:

* `src/Code/fetch_movie_ids.py` — the ID harvester: generates date windows
  (`generate_date_range`), fetches movie identifiers per window with
  pagination and recursive bisection (`fetch_movie_ids`), fans the windows
  out over a thread pool (`get_all_id`) and writes the identifiers to a
  text file (`write_movie_ids`).
* `src/Code/fetch_module_ids.py` — an older near-duplicate of the same
  script (oversized threshold 500 instead of 1000, and a fan-in loop
  without a try/except).
* `src/Code/review_database.py` — the review harvester: reads the
  identifier file (`read_movie_ids`), fetches reviews per identifier with
  retry/backoff (`fetch_reviews`), fans out over a pool
  (`get_reviews_map`) and writes a CSV (`save_reviews_to_csv`).

The HTTP layer is modelled by oracles: a discovery oracle maps a date
window (dates are day numbers, `Int`) and a page number to either `none`
(a `requests.exceptions.RequestException`, the only exception the code
catches there) or a parsed JSON response.  Loops and the bisection
recursion are modelled with explicit fuel; a `none` result of a fueled
function means the computation did not finish within the given fuel.
-/

/-- A parsed discovery response (`data` in `fetch_movie_ids`).  The three
fields the code reads are all optional in the JSON object: the code tests
membership with `"total_ranges" in data` and `"results" in data`, and uses
`data.get('total_pages', 1)`. -/
structure DiscoverResponse where
  total_ranges : Option Int
  results : Option (List Int)
  total_pages : Option Nat
deriving DecidableEq

/-- The discovery HTTP layer: window start, window end, page number to an
outcome.  `none` models a request-level exception (caught by the script);
`some d` models a 2xx response whose body parsed to `d`. -/
abbrev DiscoverOracle := Int → Int → Nat → Option DiscoverResponse

/-- The oversized-result indicator test of `fetch_movie_ids` line 61:
`"total_ranges" in data and data['total_ranges'] >= threshold`
(threshold 1000 in `fetch_movie_ids.py`, 500 in `fetch_module_ids.py`). -/
def oversized (threshold : Int) (d : DiscoverResponse) : Bool :=
  match d.total_ranges with
  | some v => threshold ≤ v
  | none => false

/-- Result of one window fetch: the identifier list the Python function
returns, plus an instrumentation counter of how many bisections the call
tree performed (0 means no recursive sub-fetch happened). -/
structure FetchIdsResult where
  ids : List Int
  splits : Nat
deriving DecidableEq

/-- Fueled embedding of the `while True` pagination loop of
`fetch_movie_ids` (lines 48–78 of `fetch_movie_ids.py`).  State: current
`page` and the accumulated `acc` (`movie_ids`).  Per iteration, in source
order: issue the request (`none` ⇒ the except-branch breaks and returns
the accumulated list); test the oversized indicator and, when set, return
the concatenation of the two recursive sub-fetches split at
`start + 365 days`, discarding `acc`; otherwise extend `acc` with the
page's results and stop when `page >= data.get('total_pages', 1)`.
Fuel `0` returns `none` (computation not finished). -/
def fetchGo (threshold : Int) (oracle : DiscoverOracle) :
    Nat → Int → Int → Nat → List Int → Option FetchIdsResult
  | 0, _, _, _, _ => none
  | fuel + 1, s, e, page, acc =>
    match oracle s e page with
    | none => some ⟨acc, 0⟩
    | some data =>
      if oversized threshold data then
        match fetchGo threshold oracle fuel s (s + 365) 1 [],
              fetchGo threshold oracle fuel (s + 365) e 1 [] with
        | some l, some r => some ⟨l.ids ++ r.ids, l.splits + r.splits + 1⟩
        | _, _ => none
      else
        let acc2 := acc ++ data.results.getD []
        if data.total_pages.getD 1 ≤ page then some ⟨acc2, 0⟩
        else fetchGo threshold oracle fuel s e (page + 1) acc2

/-- `fetch_movie_ids(start_date, end_date, session)` of
`fetch_movie_ids.py`: pagination starts at page 1 with an empty
accumulator; the oversized threshold is 1000. -/
def fetch_movie_ids (oracle : DiscoverOracle) (fuel : Nat) (s e : Int) :
    Option FetchIdsResult :=
  fetchGo 1000 oracle fuel s e 1 []

/-- `fetch_movie_ids(start_date, end_date)` of `fetch_module_ids.py`:
identical control flow with oversized threshold 500. -/
def fetch_movie_ids_module (oracle : DiscoverOracle) (fuel : Nat) (s e : Int) :
    Option FetchIdsResult :=
  fetchGo 500 oracle fuel s e 1 []

/-- Fueled embedding of the `while end_date > cutoff_date` loop of
`generate_date_range` (lines 31–41 of `fetch_movie_ids.py`).  `c` is
`chunk_size * 365` in days; each iteration appends
`(end_date - c, end_date)` and moves `end_date` down by `c`. -/
def gdrGo (c : Int) : Nat → Int → Int → List (Int × Int) → Option (List (Int × Int))
  | 0, _, _, _ => none
  | fuel + 1, endD, cutoff, acc =>
    if cutoff < endD then
      gdrGo c fuel (endD - c) cutoff (acc ++ [(endD - c, endD)])
    else some acc

/-- `generate_date_range(years, initial_chunk)`: `today` is passed
explicitly (the script reads `datetime.date.today()`), the cutoff is
`today - years*365 days`.  Fuel `years + 1` bounds the iteration count
whenever `chunk ≥ 1` (the loop advances by `chunk*365 ≥ 365` days per
step); for `chunk = 0` the Python loop never terminates and this fueled
embedding returns `none` for every fuel (see `gdrGo_zero_chunk_diverges`). -/
def generate_date_range (today : Int) (years chunk : Nat) :
    Option (List (Int × Int)) :=
  gdrGo (365 * (chunk : Int)) (years + 1) today (today - 365 * (years : Int)) []

/-- The windows produced by `k` iterations of the generator loop starting
from `endD` with step `c`, in append order. -/
def gdrWindows (endD c : Int) (k : Nat) : List (Int × Int) :=
  (List.range k).map fun i : Nat => (endD - c * ((i : Int) + 1), endD - c * (i : Int))

/-- Concrete witness for C1: a window `(0, 1000)` whose page-1 response is
oversized (`total_ranges = 1500`); the sub-windows `(0, 365)` and
`(365, 1000)` return `[1]` and `[2]`.  Even with a stale accumulator
`[7]`, the result is the concatenation `[1, 2]` with one split, and `7`
is discarded. -/
def c1Oracle : DiscoverOracle := fun s e _ =>
  if s = 0 ∧ e = 1000 then some ⟨some 1500, some [99], some 1⟩
  else if s = 0 ∧ e = 365 then some ⟨none, some [1], some 1⟩
  else some ⟨none, some [2], some 1⟩

/-- C8.  The concrete two-page scenario of the spec: window
`(2020-01-01, 2024-01-01)` (day numbers 18262 and 19723), page 1 carries
20 results and `total_pages = 2`, page 2 carries 5 results, no
oversized indicator on either page.  `fetch_movie_ids` returns exactly
the 25 identifiers in page order and performs no bisection
(`splits = 0`). -/
def c8Oracle : DiscoverOracle := fun _ _ page =>
  if page = 1 then
    some ⟨none, some [1, 2, 3, 4, 5, 6, 7, 8, 9, 10, 11, 12, 13, 14, 15,
      16, 17, 18, 19, 20], some 2⟩
  else if page = 2 then some ⟨none, some [21, 22, 23, 24, 25], some 2⟩
  else some ⟨none, some [], some 2⟩

/-- Witness oracle for C7: page 1 of window `(0, 100)` returns `[5]`
claiming 2 total pages; the request for page 2 raises. -/
def c7Oracle : DiscoverOracle := fun _ _ page =>
  if page = 1 then some ⟨none, some [5], some 2⟩ else none

/-- Divergence of a window fetch: no amount of fuel makes the fueled
embedding of `fetch_movie_ids` finish on this oracle and window.  This is
exactly the situation in which the Python recursion never returns. -/
def fetchDiverges (oracle : DiscoverOracle) (s e : Int) : Prop :=
  ∀ fuel, fetch_movie_ids oracle fuel s e = none

/-- An adversarial discovery oracle: every response reports the oversized
indicator (`total_ranges = 1000`) and a finite `total_pages = 1`. -/
def c9BadOracle : DiscoverOracle := fun _ _ _ =>
  some ⟨some 1000, some [], some 1⟩

/-- A benign oracle for the C9 witness: every response is a single page
with one identifier and no oversized indicator. -/
def c9OkOracle : DiscoverOracle := fun _ _ _ => some ⟨none, some [3], some 1⟩

/-- Divergence of the generator loop: no fuel suffices. -/
def gdrDiverges (today : Int) (years chunk : Nat) : Prop :=
  ∀ (fuel : Nat) (acc : List (Int × Int)),
    gdrGo (365 * (chunk : Int)) fuel today (today - 365 * (years : Int)) acc = none

/-- A raw review object inside a 200-response body: `content` may be
missing (`review.get("content", "NA")`) and the rating inside
`author_details` may be missing
(`review.get("author_details", {}).get("rating", "NA")`).  Field values
are opaque to the harvester; we represent them as strings. -/
structure RawReview where
  content : Option String
  rating : Option String
deriving DecidableEq

/-- An output review record of `fetch_reviews`. -/
structure Review where
  content : String
  rating : String
deriving DecidableEq

/-- The placeholder record used wherever the code substitutes
missing data. -/
def placeholderReview : Review := ⟨"NA", "NA"⟩

/-- The per-review mapping of the 200-branch list comprehension
(lines 54–59 of `review_database.py`). -/
def mapReview (r : RawReview) : Review :=
  ⟨r.content.getD "NA", r.rating.getD "NA"⟩

/-- Outcome of one review request in `fetch_reviews`: `exn` models any
exception caught by the `except Exception` clause; `resp code results`
models a response with that status code (the body is only read when the
code is 200). -/
inductive ReviewOutcome
  | exn
  | resp (code : Nat) (results : List RawReview)
deriving DecidableEq

/-- The review HTTP layer: attempt index to outcome. -/
abbrev ReviewOracle := Nat → ReviewOutcome

/-- Result of `fetch_reviews` plus an instrumentation trace: the list of
sleep durations performed in order, and the number of HTTP requests
issued. -/
structure FetchReviewsResult where
  reviews : List Review
  waits : List Nat
  attempts : Nat
deriving DecidableEq

/-- Embedding of the `for attempt in range(retries)` loop of
`fetch_reviews` (lines 46–73 of `review_database.py`), structurally
recursive on the remaining attempts.  Status 200 returns the mapped
review list, or the single placeholder when it is empty (the Python
`or [...]` on the falsy empty list); status 429 sleeps
`backoff * (attempt + 1)` and retries; any other status returns the
placeholder immediately; an exception sleeps `backoff` and retries;
falling off the loop returns the placeholder. -/
def frGo (oracle : ReviewOracle) (backoff : Nat) :
    Nat → Nat → FetchReviewsResult
  | _, 0 => ⟨[placeholderReview], [], 0⟩
  | attempt, remaining + 1 =>
    match oracle attempt with
    | .exn =>
      let r := frGo oracle backoff (attempt + 1) remaining
      ⟨r.reviews, backoff :: r.waits, r.attempts + 1⟩
    | .resp code results =>
      if code = 200 then
        let mapped := results.map mapReview
        ⟨if mapped.isEmpty then [placeholderReview] else mapped, [], 1⟩
      else if code = 429 then
        let r := frGo oracle backoff (attempt + 1) remaining
        ⟨r.reviews, backoff * (attempt + 1) :: r.waits, r.attempts + 1⟩
      else ⟨[placeholderReview], [], 1⟩

/-- `fetch_reviews(movie_id, retries=3, backoff=2)`: the loop starts at
attempt 0 with `retries` attempts remaining (defaults: retries 3,
backoff 2).  The movie identifier only flows through to the result pair
in Python and is omitted here. -/
def fetch_reviews (oracle : ReviewOracle) (retries backoff : Nat) :
    FetchReviewsResult :=
  frGo oracle backoff 0 retries

/-- An outcome on which the loop retries: an exception or a 429. -/
def retryable (o : ReviewOutcome) : Prop :=
  o = .exn ∨ ∃ b, o = .resp 429 b

/-- Witness oracle for C5: attempt 0 is rate limited, attempt 1 returns
200 with zero reviews. -/
def c5Oracle : ReviewOracle := fun i =>
  if i = 0 then .resp 429 [] else .resp 200 []

/-- Witness oracle for C6: always rate limited. -/
def c6Oracle : ReviewOracle := fun _ => .resp 429 []

/-- One iteration of the fan-in loop of `get_all_id` in
`fetch_movie_ids.py` (lines 94–99): `try: movie_ids.extend(future.result())
except: print(...)` — an item whose future raised contributes nothing. -/
def collectIdsStep (acc : List Int) (r : Except String (List Int)) : List Int :=
  match r with
  | .ok l => acc ++ l
  | .error _ => acc

/-- The fan-in loop of `get_all_id` in `fetch_movie_ids.py` over the
completed futures, in completion order.  Each list element is one worker
outcome: `ok ids` for a future that returned, `error msg` for one whose
exception escaped the worker. -/
def get_all_id_collect (results : List (Except String (List Int))) : List Int :=
  results.foldl collectIdsStep []

/-- One iteration of the fan-in loop of `get_reviews_map` in
`review_database.py` (lines 85–91): a failed future is logged and
replaced by the single placeholder review. -/
def collectReviewsStep (acc : List (Int × List Review))
    (p : Int × Except String (List Review)) : List (Int × List Review) :=
  acc ++ [(p.1, match p.2 with | .ok l => l | .error _ => [placeholderReview])]

/-- The fan-in loop of `get_reviews_map` over completed futures.  The
Python dict `reviews_map` is modelled as an association list in insertion
order (the submitted movie identifiers are distinct). -/
def get_reviews_map_collect (results : List (Int × Except String (List Review))) :
    List (Int × List Review) :=
  results.foldl collectReviewsStep []

/-- The fan-in loop of `get_all_id` in `fetch_module_ids.py`
(lines 104–105): `movie_ids.extend(future.result())` with no try/except —
the first failed future re-raises out of the loop and the function never
returns its accumulated list. -/
def get_all_id_module_collect : List (Except String (List Int)) → Except String (List Int)
  | [] => .ok []
  | r :: rs =>
    match r with
    | .error e => .error e
    | .ok l =>
      match get_all_id_module_collect rs with
      | .ok rest => .ok (l ++ rest)
      | .error e => .error e

/-- The contribution of one worker outcome in the guarded id fan-in. -/
def okOrNil : Except String (List Int) → List Int
  | .ok l => l
  | .error _ => []

/-- The contribution of one worker outcome in the review fan-in. -/
def reviewsOrPlaceholder : Except String (List Review) → List Review
  | .ok l => l
  | .error _ => [placeholderReview]

/-- A row of the output CSV of the review harvester. -/
structure CsvRow where
  movie_id : Int
  review : String
  rating : String
deriving DecidableEq

/-- The Python exception that `save_reviews_to_csv` actually raises. -/
inductive PyError
  | attributeError (msg : String)
deriving DecidableEq

/-- The slice of filesystem state `save_reviews_to_csv` touches:
existing directories and written CSV files. -/
structure Fs where
  dirs : List String
  files : List (String × List CsvRow)
deriving DecidableEq

/-- The row flattening of `save_reviews_to_csv` lines 108–115: one output
row per review, carrying that review's content and rating.  In the
current source this code is unreachable (see `save_reviews_to_csv`). -/
def csv_rows (reviews_map : List (Int × List Review)) : List CsvRow :=
  reviews_map.foldl
    (fun rows p => rows ++ p.2.map fun r => ⟨p.1, r.content, r.rating⟩) []

/-- Embedding of `save_reviews_to_csv(reviews_map, filename)` of
`review_database.py` lines 98–119.  The function first creates the
`../data` directory if absent (lines 102–103).  Line 105 then evaluates
`os.join(directory, filename)` — but the `os` module has no attribute
`join` (`os.path.join` was intended), so an `AttributeError` is raised
before any row is assembled or any file written; lines 107–119 are
unreachable (and line 118 would raise a `NameError` on the undefined
name `filepath` even if line 105 were fixed). -/
def save_reviews_to_csv (fs : Fs) (reviews_map : List (Int × List Review))
    (filename : String) : Fs × Except PyError Unit :=
  let fs1 :=
    if "../data" ∈ fs.dirs then fs else { fs with dirs := fs.dirs ++ ["../data"] }
  (fs1, Except.error (PyError.attributeError "module os has no attribute join"))

/-- Little-endian decimal digits of `n` (least significant first), with
fuel; `natDigitsRev n n` is exact since `n` halves at least every step.
This models the decimal rendering done by Python's `str` builtin
(a collaborator of `write_movie_ids`). -/
def natDigitsRev : Nat → Nat → List Nat
  | 0, _ => []
  | f + 1, n => if n = 0 then [] else n % 10 :: natDigitsRev f (n / 10)

/-- The character for one decimal digit. -/
def digitChar (d : Nat) : Char := Char.ofNat (48 + d)

/-- Decimal rendering of a natural number, as `str` produces it. -/
def natChars (n : Nat) : List Char :=
  if n = 0 then ['0'] else ((natDigitsRev n n).map digitChar).reverse

/-- Decimal rendering of an integer, as `str` produces it: a minus sign
followed by the digits for negatives. -/
def intChars : Int → List Char
  | .ofNat n => natChars n
  | .negSucc n => '-' :: natChars (n + 1)

/-- `"\n".join(...)`: no separator around a single part, a newline
between consecutive parts. -/
def joinNl : List (List Char) → List Char
  | [] => []
  | [p] => p
  | p :: q :: ps => p ++ '\n' :: joinNl (q :: ps)

/-- `write_movie_ids(movie_ids)` of `fetch_movie_ids.py` lines 106–108:
the text written to `movie_id.txt` is the newline-join of the decimal
renderings (`"\n".join(map(str, movie_ids))`), modelled as the file's
character content. -/
def write_movie_ids (ids : List Int) : List Char :=
  joinNl (ids.map intChars)

/-- Splitting file content into lines at newline characters, as Python's
line iteration over a text file produces them (`line.strip()` then
removes the trailing newline, so splitting before stripping is
equivalent).  An empty content yields one empty line. -/
def splitNl : List Char → List (List Char)
  | [] => [[]]
  | c :: cs =>
    if c = '\n' then [] :: splitNl cs
    else
      match splitNl cs with
      | [] => [[c]]
      | l :: ls => (c :: l) :: ls

/-- `line.strip()`: drop whitespace from both ends. -/
def pyStrip (l : List Char) : List Char :=
  ((l.dropWhile Char.isWhitespace).reverse.dropWhile Char.isWhitespace).reverse

/-- Digit-run parser: the core of the Python builtin `int` applied to an
already-stripped line; `none` models the `ValueError` on a non-digit. -/
def parseNatAux : List Char → Nat → Option Nat
  | [], acc => some acc
  | c :: cs, acc =>
    if c.isDigit then parseNatAux cs (10 * acc + (c.toNat - 48)) else none

/-- The Python builtin `int` on a stripped line (a collaborator of
`read_movie_ids`): an optional sign followed by at least one decimal
digit. -/
def pyInt : List Char → Option Int
  | [] => none
  | c :: cs =>
    if c = '-' then
      if cs = [] then none else (parseNatAux cs 0).map fun n => -(n : Int)
    else if c = '+' then
      if cs = [] then none else (parseNatAux cs 0).map fun n => (n : Int)
    else (parseNatAux (c :: cs) 0).map fun n => (n : Int)

/-- The list comprehension `[int(line.strip()) for line in f if
line.strip()]` evaluated over pre-filtered stripped lines; `none` models
a `ValueError` escaping it. -/
def parseLines : List (List Char) → Option (List Int)
  | [] => some []
  | l :: ls =>
    match pyInt l, parseLines ls with
    | some i, some rest => some (i :: rest)
    | _, _ => none

/-- `read_movie_ids(filename)` of `review_database.py` lines 37–39,
applied to the file's character content: iterate lines, keep those with
non-empty strip, parse each stripped line as an integer. -/
def read_movie_ids (content : List Char) : Option (List Int) :=
  parseLines (((splitNl content).map pyStrip).filter fun l => !l.isEmpty)

/-- Value of a little-endian digit list. -/
def natVal (ds : List Nat) : Nat := ds.foldr (fun d r => d + 10 * r) 0

/-- C1.  If the response for any page of a window carries the
oversized-result indicator (threshold 1000, as in `fetch_movie_ids.py`),
then `fetch_movie_ids` returns exactly the concatenation of the two
recursive sub-fetches over `(start, start + 365)` and `(start + 365, end)`
— duplicates preserved, since the lists are concatenated — and the
accumulator of identifiers collected from earlier pages of that window is
discarded: the result does not depend on `acc` at all (second conjunct). -/
theorem c1_oversized_bisection (oracle : DiscoverOracle) (fuel : Nat)
    (s e : Int) (page : Nat) (acc : List Int) (d : DiscoverResponse)
    (hresp : oracle s e page = some d)
    (hov : oversized 1000 d = true) :
    fetchGo 1000 oracle (fuel + 1) s e page acc =
      (match fetchGo 1000 oracle fuel s (s + 365) 1 [],
             fetchGo 1000 oracle fuel (s + 365) e 1 [] with
       | some l, some r => some ⟨l.ids ++ r.ids, l.splits + r.splits + 1⟩
       | _, _ => none) ∧
    fetchGo 1000 oracle (fuel + 1) s e page acc =
      fetchGo 1000 oracle (fuel + 1) s e page [] := by
  constructor
  · simp only [fetchGo, hresp, hov, if_true]
  · simp only [fetchGo, hresp, hov, if_true]

theorem c1_oversized_bisection_witness :
    fetchGo 1000 c1Oracle 2 0 1000 1 [7] = some ⟨[1, 2], 1⟩ := by
  have h := c1_oversized_bisection c1Oracle 1 0 1000 1 [7]
    ⟨some 1500, some [99], some 1⟩ rfl rfl
  exact h.1.trans (by rfl)

theorem c8_two_pages_no_bisection :
    fetch_movie_ids c8Oracle 2 18262 19723 =
      some ⟨[1, 2, 3, 4, 5, 6, 7, 8, 9, 10, 11, 12, 13, 14, 15, 16, 17,
        18, 19, 20, 21, 22, 23, 24, 25], 0⟩ := by
  rfl

/-- Running the pagination loop: if pages `page, …, page + k - 1` respond
normally (no exception, no oversized indicator, each reporting at least
`page + k` total pages) and the request for page `page + k` raises a
request exception, the loop breaks and returns the accumulator extended
with the results of the `k` successfully fetched pages, in page order. -/
theorem fetchGo_pages_then_exn (T : Int) (oracle : DiscoverOracle)
    (s e : Int) (resp : Nat → DiscoverResponse) :
    ∀ (k fuel page : Nat) (acc : List Int),
    (∀ j, j < k → oracle s e (page + j) = some (resp (page + j))) →
    (∀ j, j < k → oversized T (resp (page + j)) = false) →
    (∀ j, j < k → page + k ≤ (resp (page + j)).total_pages.getD 1) →
    oracle s e (page + k) = none →
    k < fuel →
    fetchGo T oracle fuel s e page acc =
      some ⟨acc ++
        ((List.range k).map fun j => (resp (page + j)).results.getD []).flatten, 0⟩ := by
  intro k
  induction k with
  | zero =>
    intro fuel page acc _ _ _ h4 hfuel
    obtain ⟨f, rfl⟩ := Nat.exists_eq_succ_of_ne_zero (Nat.pos_iff_ne_zero.mp hfuel)
    simp only [Nat.add_zero] at h4
    simp [fetchGo, h4]
  | succ k ih =>
    intro fuel page acc h1 h2 h3 h4 hfuel
    obtain ⟨f, rfl⟩ := Nat.exists_eq_succ_of_ne_zero
      (Nat.pos_iff_ne_zero.mp (Nat.lt_of_le_of_lt (Nat.zero_le _) hfuel))
    have h10 := h1 0 (Nat.succ_pos k)
    have h20 := h2 0 (Nat.succ_pos k)
    have h30 := h3 0 (Nat.succ_pos k)
    simp only [Nat.add_zero] at h10 h20 h30
    have hcont : ¬ (resp page).total_pages.getD 1 ≤ page := by omega
    have step : fetchGo T oracle (f + 1) s e page acc =
        fetchGo T oracle f s e (page + 1) (acc ++ (resp page).results.getD []) := by
      simp [fetchGo, h10, h20, hcont]
    rw [step, ih f (page + 1) (acc ++ (resp page).results.getD [])
      (fun j hj => by have := h1 (j + 1) (by omega); rwa [show page + (j + 1) = page + 1 + j by omega] at this)
      (fun j hj => by have := h2 (j + 1) (by omega); rwa [show page + (j + 1) = page + 1 + j by omega] at this)
      (fun j hj => by have := h3 (j + 1) (by omega); rw [show page + (j + 1) = page + 1 + j by omega] at this; omega)
      (by rwa [show page + (k + 1) = page + 1 + k by omega] at h4)
      (by omega)]
    have hmap : List.map (fun j => (resp (page + 1 + j)).results.getD [])
        (List.range k) =
        List.map ((fun j => (resp (page + j)).results.getD []) ∘ Nat.succ)
        (List.range k) := by
      apply List.map_congr_left
      intro j _
      simp only [Function.comp_apply]
      rw [show page + Nat.succ j = page + 1 + j by omega]
    rw [List.range_succ_eq_map, List.map_cons, List.flatten_cons, List.map_map,
      List.append_assoc, hmap]
    simp

/-- C7.  If, for a given window, the first `k` discovery pages respond
normally (no oversized indicator; each reports at least `k + 1` total
pages so pagination continues) and the request for page `k + 1` fails with
a request exception, `fetch_movie_ids` stops paginating that window and
returns exactly the identifiers accumulated from the `k` fetched pages,
in page order, performing no bisection — the exception is absorbed, not
propagated (the fueled embedding returns a value, not fuel exhaustion). -/
theorem c7_exn_returns_partial (oracle : DiscoverOracle) (s e : Int)
    (resp : Nat → DiscoverResponse) (k fuel : Nat)
    (h1 : ∀ j, j < k → oracle s e (1 + j) = some (resp (1 + j)))
    (h2 : ∀ j, j < k → oversized 1000 (resp (1 + j)) = false)
    (h3 : ∀ j, j < k → 1 + k ≤ (resp (1 + j)).total_pages.getD 1)
    (h4 : oracle s e (1 + k) = none)
    (hfuel : k < fuel) :
    fetch_movie_ids oracle fuel s e =
      some ⟨((List.range k).map fun j => (resp (1 + j)).results.getD []).flatten, 0⟩ := by
  have h := fetchGo_pages_then_exn 1000 oracle s e resp k fuel 1 [] h1 h2
    (fun j hj => h3 j hj) h4 hfuel
  simpa [fetch_movie_ids] using h

theorem c7_exn_returns_partial_witness :
    fetch_movie_ids c7Oracle 2 0 100 = some ⟨[5], 0⟩ := by
  have h := c7_exn_returns_partial c7Oracle 0 100
    (fun _ => ⟨none, some [5], some 2⟩) 1 2
    (fun j hj => by interval_cases j <;> rfl)
    (fun j hj => by interval_cases j <;> rfl)
    (fun j hj => by interval_cases j <;> simp)
    rfl (by omega)
  simpa using h

theorem c9BadOracle_fetchGo_none :
    ∀ (fuel : Nat) (s e : Int) (page : Nat) (acc : List Int),
    fetchGo 1000 c9BadOracle fuel s e page acc = none := by
  intro fuel
  induction fuel with
  | zero => intro s e page acc; rfl
  | succ f ih => intro s e page acc; simp [fetchGo, c9BadOracle, oversized, ih]

/-- C9 counterexample.  On the window `(0, 365)` — length exactly 365
days, which the bisection splits at `start + 365` into the very same
window `(0, 365)` and the degenerate `(365, 365)` — the oracle
`c9BadOracle` reports a finite `total_pages` (namely 1) on every
response, yet `fetch_movie_ids` never terminates: the recursion
reproduces its own input window forever. -/
theorem c9_counterexample_divergence : fetchDiverges c9BadOracle 0 365 :=
  fun fuel => c9BadOracle_fetchGo_none fuel 0 365 1 []

/-- Fuel monotonicity: once the fueled pagination/bisection finishes with
some amount of fuel, any larger amount gives the same answer. -/
theorem fetchGo_mono (T : Int) (oracle : DiscoverOracle) :
    ∀ fuel fuel', fuel ≤ fuel' → ∀ (s e : Int) (page : Nat) (acc : List Int)
    (r : FetchIdsResult), fetchGo T oracle fuel s e page acc = some r →
    fetchGo T oracle fuel' s e page acc = some r := by
  intro fuel
  induction fuel with
  | zero => intro fuel' _ s e page acc r h; simp [fetchGo] at h
  | succ f ih =>
    intro fuel' hle s e page acc r h
    obtain ⟨f', rfl⟩ : ∃ f', fuel' = f' + 1 := ⟨fuel' - 1, by omega⟩
    have hff : f ≤ f' := by omega
    cases horacle : oracle s e page with
    | none => simp [fetchGo, horacle] at h ⊢; exact h
    | some data =>
      by_cases hov : oversized T data = true
      · simp only [fetchGo, horacle, hov, if_true] at h ⊢
        cases hl : fetchGo T oracle f s (s + 365) 1 [] with
        | none => rw [hl] at h; simp at h
        | some l =>
          cases hr : fetchGo T oracle f (s + 365) e 1 [] with
          | none => rw [hl, hr] at h; simp at h
          | some rr =>
            rw [hl, hr] at h
            rw [ih f' hff _ _ _ _ _ hl, ih f' hff _ _ _ _ _ hr]
            exact h
      · simp only [fetchGo, horacle, hov, if_false, Bool.false_eq_true] at h ⊢
        by_cases hpg : data.total_pages.getD 1 ≤ page
        · simp only [hpg, if_true] at h ⊢; exact h
        · simp only [hpg, if_false] at h ⊢
          exact ih f' hff _ _ _ _ _ h

/-- Termination of the bisecting fetch under the two conditions that make
the recursion well-founded: the oversized indicator is only ever reported
for windows strictly longer than 365 days (so each bisection strictly
shrinks the window), and all reported page counts share a finite bound
`B` (so each pagination loop finishes).  Strong induction on the number
`k` of 365-day blocks that fit in the window. -/
theorem fetchGo_terminates (oracle : DiscoverOracle) (B : Nat)
    (hov : ∀ (s e : Int) (p : Nat) (d : DiscoverResponse),
      oracle s e p = some d → oversized 1000 d = true → 365 < e - s)
    (htp : ∀ (s e : Int) (p : Nat) (d : DiscoverResponse),
      oracle s e p = some d → d.total_pages.getD 1 ≤ B) :
    ∀ (k : Nat) (s e : Int), e - s ≤ 365 * (k + 1) →
    ∀ (page : Nat) (acc : List Int),
    ∃ fuel r, fetchGo 1000 oracle fuel s e page acc = some r := by
  intro k
  induction k using Nat.strong_induction_on with
  | _ k IH =>
    intro s e hlen
    have hsplit : ∀ (page : Nat) (acc : List Int) (d : DiscoverResponse),
        oracle s e page = some d → oversized 1000 d = true →
        ∃ fuel r, fetchGo 1000 oracle fuel s e page acc = some r := by
      intro page acc d horacle hovd
      have hgt : 365 < e - s := hov s e page d horacle hovd
      obtain ⟨k', rfl⟩ : ∃ k', k = k' + 1 := by
        cases k with
        | zero => exfalso; push_cast at hlen; omega
        | succ k' => exact ⟨k', rfl⟩
      obtain ⟨f1, r1, h1⟩ := IH 0 (by omega) s (s + 365) (by push_cast; omega) 1 []
      obtain ⟨f2, r2, h2⟩ := IH k' (by omega) (s + 365) e
        (by push_cast at hlen ⊢; omega) 1 []
      refine ⟨max f1 f2 + 1, ⟨r1.ids ++ r2.ids, r1.splits + r2.splits + 1⟩, ?_⟩
      have h1' := fetchGo_mono 1000 oracle f1 (max f1 f2) (le_max_left _ _)
        _ _ _ _ _ h1
      have h2' := fetchGo_mono 1000 oracle f2 (max f1 f2) (le_max_right _ _)
        _ _ _ _ _ h2
      simp [fetchGo, horacle, hovd, h1', h2']
    have hpag : ∀ (n page : Nat) (acc : List Int), B ≤ page + n →
        ∃ fuel r, fetchGo 1000 oracle fuel s e page acc = some r := by
      intro n
      induction n with
      | zero =>
        intro page acc hpage
        cases horacle : oracle s e page with
        | none => exact ⟨1, ⟨acc, 0⟩, by simp [fetchGo, horacle]⟩
        | some d =>
          by_cases hovd : oversized 1000 d = true
          · exact hsplit page acc d horacle hovd
          · have htot := htp s e page d horacle
            have hle : d.total_pages.getD 1 ≤ page := by omega
            exact ⟨1, ⟨acc ++ d.results.getD [], 0⟩,
              by simp [fetchGo, horacle, hovd, hle]⟩
      | succ n ihn =>
        intro page acc hpage
        cases horacle : oracle s e page with
        | none => exact ⟨1, ⟨acc, 0⟩, by simp [fetchGo, horacle]⟩
        | some d =>
          by_cases hovd : oversized 1000 d = true
          · exact hsplit page acc d horacle hovd
          · by_cases hle : d.total_pages.getD 1 ≤ page
            · exact ⟨1, ⟨acc ++ d.results.getD [], 0⟩,
                by simp [fetchGo, horacle, hovd, hle]⟩
            · obtain ⟨f, r, hf⟩ := ihn (page + 1) (acc ++ d.results.getD [])
                (by omega)
              refine ⟨f + 1, r, ?_⟩
              simp only [fetchGo, horacle]
              simp only [hovd, if_false, Bool.false_eq_true, hle, if_true]
              simpa using hf
    intro page acc
    exact hpag B page acc (by omega)

/-- C9 amended.  The claim as stated is false (see
`c9_counterexample_divergence`): splitting a window of length at most 365
days at `start + 365` reproduces a window at least as large, so an oracle
that keeps reporting the oversized indicator — with perfectly finite
`total_pages` on every response — drives `fetch_movie_ids` into infinite
recursion.  The amended statement: if the oversized indicator is only
reported for windows strictly longer than 365 days and all reported
`total_pages` values are bounded by some `B`, then `fetch_movie_ids`
terminates on every window. -/
theorem c9_amended_terminates (oracle : DiscoverOracle) (B : Nat)
    (hov : ∀ (s e : Int) (p : Nat) (d : DiscoverResponse),
      oracle s e p = some d → oversized 1000 d = true → 365 < e - s)
    (htp : ∀ (s e : Int) (p : Nat) (d : DiscoverResponse),
      oracle s e p = some d → d.total_pages.getD 1 ≤ B)
    (s e : Int) :
    ∃ fuel r, fetch_movie_ids oracle fuel s e = some r := by
  have h := fetchGo_terminates oracle B hov htp (e - s).toNat s e (by omega) 1 []
  simpa [fetch_movie_ids] using h

theorem c9_amended_terminates_witness :
    ∃ fuel r, fetch_movie_ids c9OkOracle fuel 0 10000 = some r := by
  apply c9_amended_terminates c9OkOracle 1
  · intro s e p d hd hovd
    exfalso
    cases hd
    simp [oversized] at hovd
  · intro s e p d hd
    cases hd
    simp

/-- Unfolding one generator iteration at the level of the produced
window list. -/
theorem gdrWindows_succ (endD c : Int) (k : Nat) :
    gdrWindows endD c (k + 1) = (endD - c, endD) :: gdrWindows (endD - c) c k := by
  unfold gdrWindows
  rw [List.range_succ_eq_map, List.map_cons, List.map_map]
  refine congrArg₂ List.cons (by norm_num) ?_
  apply List.map_congr_left
  intro i _
  simp only [Function.comp_apply]
  rw [Prod.mk.injEq]
  constructor
  · push_cast; ring
  · push_cast; ring

/-- Invariant of the `while end_date > cutoff_date` loop: with step
`c > 0` and enough fuel, the loop returns the accumulator followed by `k`
chunk windows walking backward from `endD`, where the walk passed the
cutoff (`endD - c*k ≤ cutoff`) and every earlier position was still
above it. -/
theorem gdrGo_spec (c : Int) (hc : 0 < c) :
    ∀ (f : Nat) (endD cutoff : Int) (acc : List (Int × Int)),
    endD - cutoff ≤ c * f →
    ∃ k, gdrGo c (f + 1) endD cutoff acc = some (acc ++ gdrWindows endD c k) ∧
      endD - c * k ≤ cutoff ∧ ∀ j : Nat, j < k → cutoff < endD - c * j := by
  intro f
  induction f with
  | zero =>
    intro endD cutoff acc hfuel
    push_cast at hfuel
    have hnot : ¬ cutoff < endD := by linarith
    refine ⟨0, ?_, ?_, ?_⟩
    · simp [gdrGo, hnot, gdrWindows]
    · push_cast; linarith
    · intro j hj; omega
  | succ f ih =>
    intro endD cutoff acc hfuel
    by_cases hlt : cutoff < endD
    · have step : gdrGo c (f + 1 + 1) endD cutoff acc =
          gdrGo c (f + 1) (endD - c) cutoff (acc ++ [(endD - c, endD)]) := by
        simp [gdrGo, hlt]
      obtain ⟨k, hk, hle, hstrict⟩ := ih (endD - c) cutoff
        (acc ++ [(endD - c, endD)]) (by push_cast at hfuel ⊢; linarith)
      refine ⟨k + 1, ?_, ?_, ?_⟩
      · rw [step, hk, gdrWindows_succ, List.append_assoc, List.singleton_append]
      · have harith : endD - c * ((k : Int) + 1) = (endD - c) - c * (k : Int) := by
          ring
        push_cast
        push_cast at hle
        linarith [harith]
      · intro j hj
        cases j with
        | zero => simpa using hlt
        | succ j =>
          have hs := hstrict j (by omega)
          have harith : endD - c * ((j : Int) + 1) = (endD - c) - c * (j : Int) := by
            ring
          push_cast
          push_cast at hs
          linarith
    · refine ⟨0, ?_, ?_, ?_⟩
      · simp [gdrGo, hlt, gdrWindows]
      · push_cast; linarith
      · intro j hj; omega

/-- Element formula for the produced window list. -/
theorem gdrWindows_get (endD c : Int) (k i : Nat) (h : i < (gdrWindows endD c k).length) :
    (gdrWindows endD c k).get ⟨i, h⟩ = (endD - c * (i + 1), endD - c * i) := by
  simp [gdrWindows, List.get_eq_getElem]

theorem gdrWindows_length (endD c : Int) (k : Nat) :
    (gdrWindows endD c k).length = k := by
  simp [gdrWindows]

/-- The `k` windows walking backward from `endD` cover every point of
`[endD - c*k, endD]`. -/
theorem gdrWindows_cover (c : Int) :
    ∀ (k : Nat) (endD d : Int), 0 < k → endD - c * k ≤ d → d ≤ endD →
    ∃ w ∈ gdrWindows endD c k, w.1 ≤ d ∧ d ≤ w.2 := by
  intro k
  induction k with
  | zero => intro endD d h0; exact absurd h0 (lt_irrefl 0)
  | succ k ih =>
    intro endD d _ hlow hhigh
    by_cases hcase : endD - c ≤ d
    · exact ⟨(endD - c, endD),
        by rw [gdrWindows_succ]; exact List.mem_cons_self _ _, hcase, hhigh⟩
    · have hk : 0 < k := by
        rcases Nat.eq_zero_or_pos k with h0 | h0
        · subst h0
          push_cast at hlow
          exfalso
          apply hcase
          linarith
        · exact h0
      obtain ⟨w, hw, hw1, hw2⟩ := ih (endD - c) d hk
        (by push_cast at hlow ⊢; linarith) (by linarith)
      exact ⟨w, by rw [gdrWindows_succ]; exact List.mem_cons_of_mem _ hw, hw1, hw2⟩

/-- C4 amended.  For every `years ≥ 1` and `chunk ≥ 1`, the generated
window list exists (the loop terminates within the `years + 1` fuel) and
satisfies the claim: consecutive windows are contiguous (each window's
start is the next window's end), every window is exactly `chunk * 365`
days long (no clamping at the cutoff), the windows cover every day of
`[today - years*365, today]`, and no window start precedes the cutoff by
a full chunk or more.  The original claim quantified over every chunk
size; it fails for `chunk = 0`, where the loop never terminates (see
`c4_counterexample_chunk_zero`), and for `years = 0`, where no window is
produced and the one-point interval `[today, today]` is left uncovered. -/
theorem c4_amended_window_properties (today : Int) (years chunk : Nat)
    (hy : 1 ≤ years) (hc : 1 ≤ chunk) :
    ∃ l, generate_date_range today years chunk = some l ∧
      l ≠ [] ∧
      (∀ (i : Nat) (h : i + 1 < l.length),
        (l.get ⟨i, Nat.lt_of_succ_lt h⟩).1 = (l.get ⟨i + 1, h⟩).2) ∧
      (∀ w ∈ l, w.2 - w.1 = 365 * (chunk : Int)) ∧
      (∀ d : Int, today - 365 * (years : Int) ≤ d → d ≤ today →
        ∃ w ∈ l, w.1 ≤ d ∧ d ≤ w.2) ∧
      (∀ w ∈ l, today - 365 * (years : Int) - 365 * (chunk : Int) < w.1) := by
  have hcInt : (1 : Int) ≤ (chunk : Int) := by exact_mod_cast hc
  have hyInt : (1 : Int) ≤ (years : Int) := by exact_mod_cast hy
  have hc0 : 0 < 365 * (chunk : Int) := by linarith
  have hfuel : today - (today - 365 * (years : Int)) ≤ 365 * (chunk : Int) * (years : Int) := by
    nlinarith
  obtain ⟨k, hk, hle, hstrict⟩ := gdrGo_spec (365 * (chunk : Int)) hc0 years today
    (today - 365 * (years : Int)) [] (by push_cast; push_cast at hfuel; linarith)
  have hkpos : 0 < k := by
    rcases Nat.eq_zero_or_pos k with h0 | h0
    · subst h0
      push_cast at hle
      exfalso
      linarith
    · exact h0
  refine ⟨gdrWindows today (365 * (chunk : Int)) k, ?_, ?_, ?_, ?_, ?_, ?_⟩
  · simpa [generate_date_range] using hk
  · intro hnil
    have := congrArg List.length hnil
    rw [gdrWindows_length] at this
    simp at this
    omega
  · intro i h
    have hlen := gdrWindows_length today (365 * (chunk : Int)) k
    rw [gdrWindows_get, gdrWindows_get]
    push_cast
    ring
  · intro w hw
    obtain ⟨i, _, rfl⟩ := List.mem_map.mp hw
    simp only []
    push_cast
    ring
  · intro d h1 h2
    apply gdrWindows_cover (365 * (chunk : Int)) k today d hkpos ?_ h2
    push_cast at hle ⊢
    linarith
  · intro w hw
    obtain ⟨i, hi, rfl⟩ := List.mem_map.mp hw
    have hs := hstrict i (List.mem_range.mp hi)
    push_cast at hs ⊢
    linarith

/-- With step 0 the loop state never changes, so the loop never
terminates: the fueled embedding returns `none` for every fuel. -/
theorem gdrGo_zero_chunk_diverges :
    ∀ (fuel : Nat) (endD cutoff : Int) (acc : List (Int × Int)),
    cutoff < endD → gdrGo 0 fuel endD cutoff acc = none := by
  intro fuel
  induction fuel with
  | zero => intros; rfl
  | succ f ih =>
    intro endD cutoff acc hlt
    simp only [gdrGo, if_pos hlt]
    rw [show endD - 0 = endD from sub_zero endD]
    exact ih endD cutoff _ hlt

/-- C4 counterexample.  With `years = 1` and `chunk = 0` the claim fails:
`generate_date_range` produces no window list at all — the Python loop
`while end_date > cutoff_date` never advances (`start_date = end_date`)
and runs forever, which the fueled embedding reflects by returning `none`
at every fuel (second conjunct: divergence is real, not fuel shortage). -/
theorem c4_counterexample_chunk_zero :
    generate_date_range 0 1 0 = none ∧ gdrDiverges 0 1 0 := by
  constructor
  · rfl
  · intro fuel acc
    have h := gdrGo_zero_chunk_diverges fuel 0 (0 - 365 * ((1 : Nat) : Int)) acc
      (by norm_num)
    simpa using h

theorem c4_amended_window_properties_witness :
    1 ≤ 1 ∧
    (∃ l, generate_date_range 0 1 1 = some l ∧
      l ≠ [] ∧
      (∀ (i : Nat) (h : i + 1 < l.length),
        (l.get ⟨i, Nat.lt_of_succ_lt h⟩).1 = (l.get ⟨i + 1, h⟩).2) ∧
      (∀ w ∈ l, w.2 - w.1 = 365 * ((1 : Nat) : Int)) ∧
      (∀ d : Int, 0 - 365 * ((1 : Nat) : Int) ≤ d → d ≤ 0 →
        ∃ w ∈ l, w.1 ≤ d ∧ d ≤ w.2) ∧
      (∀ w ∈ l, 0 - 365 * ((1 : Nat) : Int) - 365 * ((1 : Nat) : Int) < w.1)) :=
  ⟨le_refl 1, c4_amended_window_properties 0 1 1 (le_refl 1) (le_refl 1)⟩

/-- The review list produced by the retry loop is never empty, wherever
the loop is entered. -/
theorem frGo_reviews_ne_nil (oracle : ReviewOracle) (backoff : Nat) :
    ∀ (remaining attempt : Nat),
    (frGo oracle backoff attempt remaining).reviews ≠ [] := by
  intro remaining
  induction remaining with
  | zero => intro attempt; simp [frGo, placeholderReview]
  | succ n ih =>
    intro attempt
    cases ho : oracle attempt with
    | exn => simp only [frGo, ho]; exact ih (attempt + 1)
    | resp code results =>
      by_cases h200 : code = 200
      · simp only [frGo, ho, h200, if_true]
        cases hm : (results.map mapReview).isEmpty with
        | true => simp [hm]
        | false =>
          simp only [hm, if_false, Bool.false_eq_true]
          simpa [List.isEmpty_iff] using hm
      · by_cases h429 : code = 429
        · simp only [frGo, ho, h200, h429, if_false, if_true, Bool.false_eq_true]
          exact ih (attempt + 1)
        · simp [frGo, ho, h200, h429]

/-- If the first `a` attempts are retryable and attempt `a` (still within
the retry budget) succeeds with a 200 carrying zero reviews, the loop
returns exactly the single placeholder review. -/
theorem frGo_zero_reviews (oracle : ReviewOracle) (backoff : Nat) :
    ∀ (a attempt remaining : Nat), a < remaining →
    (∀ i, i < a → retryable (oracle (attempt + i))) →
    oracle (attempt + a) = .resp 200 [] →
    (frGo oracle backoff attempt remaining).reviews = [placeholderReview] := by
  intro a
  induction a with
  | zero =>
    intro attempt remaining hlt _ hsucc
    obtain ⟨n, rfl⟩ : ∃ n, remaining = n + 1 := ⟨remaining - 1, by omega⟩
    simp only [Nat.add_zero] at hsucc
    simp [frGo, hsucc, mapReview]
  | succ a ih =>
    intro attempt remaining hlt hprior hsucc
    obtain ⟨n, rfl⟩ : ∃ n, remaining = n + 1 := ⟨remaining - 1, by omega⟩
    have h0 := hprior 0 (Nat.succ_pos a)
    simp only [Nat.add_zero] at h0
    have hrec : (frGo oracle backoff (attempt + 1) n).reviews = [placeholderReview] := by
      apply ih (attempt + 1) n (by omega)
      · intro i hi
        have := hprior (i + 1) (by omega)
        rwa [show attempt + (i + 1) = attempt + 1 + i by omega] at this
      · rwa [show attempt + (a + 1) = attempt + 1 + a by omega] at hsucc
    rcases h0 with h0 | ⟨b, h0⟩
    · simp only [frGo, h0]
      exact hrec
    · simp only [frGo, h0]
      norm_num
      exact hrec

/-- C5.  If the review request for an identifier succeeds with zero
reviews at some attempt `a` within the retry budget (all earlier attempts
having been retryable: exceptions or rate limits), `fetch_reviews`
returns exactly one placeholder review, with content "NA" and rating
"NA" — so the identifier contributes exactly one output row.  More
generally (last conjunct), the review list `fetch_reviews` returns is
never empty, for any oracle, retry budget and backoff. -/
theorem c5_zero_reviews_placeholder (oracle : ReviewOracle)
    (retries backoff a : Nat) (ha : a < retries)
    (hprior : ∀ i, i < a → retryable (oracle i))
    (hsucc : oracle a = .resp 200 []) :
    (fetch_reviews oracle retries backoff).reviews = [placeholderReview] ∧
    placeholderReview = ⟨"NA", "NA"⟩ ∧
    ∀ (o2 : ReviewOracle) (r2 b2 : Nat),
      (fetch_reviews o2 r2 b2).reviews ≠ [] := by
  refine ⟨?_, rfl, fun o2 r2 b2 => frGo_reviews_ne_nil o2 b2 r2 0⟩
  apply frGo_zero_reviews oracle backoff a 0 retries ha
  · intro i hi
    simpa using hprior i hi
  · simpa using hsucc

theorem c5_zero_reviews_placeholder_witness :
    (fetch_reviews c5Oracle 3 2).reviews = [placeholderReview] ∧
    placeholderReview = ⟨"NA", "NA"⟩ ∧
    ∀ (o2 : ReviewOracle) (r2 b2 : Nat),
      (fetch_reviews o2 r2 b2).reviews ≠ [] := by
  apply c5_zero_reviews_placeholder c5Oracle 3 2 1 (by omega)
  · intro i hi
    interval_cases i
    exact Or.inr ⟨[], rfl⟩
  · rfl

/-- The number of HTTP requests the retry loop issues never exceeds the
number of remaining attempts. -/
theorem frGo_attempts_le (oracle : ReviewOracle) (backoff : Nat) :
    ∀ (remaining attempt : Nat),
    (frGo oracle backoff attempt remaining).attempts ≤ remaining := by
  intro remaining
  induction remaining with
  | zero => intro attempt; simp [frGo]
  | succ n ih =>
    intro attempt
    cases ho : oracle attempt with
    | exn =>
      simp only [frGo, ho]
      have := ih (attempt + 1)
      omega
    | resp code results =>
      by_cases h200 : code = 200
      · simp [frGo, ho, h200]
      · by_cases h429 : code = 429
        · have := ih (attempt + 1)
          simp only [frGo, ho, h429]
          norm_num
          omega
        · simp [frGo, ho, h200, h429]

/-- Exact behavior of the retry loop when every attempt is rate
limited: all `remaining` attempts are spent, the loop sleeps
`backoff * (attempt + 1)` before each retry, and the placeholder is
returned. -/
theorem frGo_all_rate_limited (oracle : ReviewOracle) (backoff : Nat) :
    ∀ (remaining attempt : Nat),
    (∀ i, i < remaining → ∃ b, oracle (attempt + i) = .resp 429 b) →
    frGo oracle backoff attempt remaining =
      ⟨[placeholderReview],
       (List.range remaining).map fun k : Nat => backoff * (attempt + k + 1),
       remaining⟩ := by
  intro remaining
  induction remaining with
  | zero => intro attempt _; simp [frGo]
  | succ n ih =>
    intro attempt h
    obtain ⟨b, hb⟩ := h 0 (Nat.succ_pos n)
    simp only [Nat.add_zero] at hb
    have hrec := ih (attempt + 1) (fun i hi => by
      have := h (i + 1) (by omega)
      rwa [show attempt + (i + 1) = attempt + 1 + i by omega] at this)
    have hwaits : (List.range (n + 1)).map (fun k : Nat => backoff * (attempt + k + 1)) =
        backoff * (attempt + 1) ::
          (List.range n).map (fun k : Nat => backoff * (attempt + 1 + k + 1)) := by
      rw [List.range_succ_eq_map, List.map_cons, List.map_map]
      congr 1
      apply List.map_congr_left
      intro k _
      simp only [Function.comp_apply]
      congr 1
      omega
    rw [hwaits]
    simp [frGo, hb, hrec]

/-- C6.  If every attempt is answered with a rate-limit status (429),
`fetch_reviews` issues exactly `retries` requests (at most the configured
ceiling, default 3), sleeps `backoff * k` before retry `k` (k counted
from 1) — a non-decreasing schedule — and, the retries exhausted, returns
the single placeholder review.  The last conjunct is the general ceiling:
for any oracle whatsoever, the number of requests never exceeds
`retries`. -/
theorem c6_rate_limit_retries (oracle : ReviewOracle) (retries backoff : Nat)
    (h429 : ∀ i, i < retries → ∃ b, oracle i = .resp 429 b) :
    (fetch_reviews oracle retries backoff).attempts = retries ∧
    (fetch_reviews oracle retries backoff).waits =
      (List.range retries).map (fun k : Nat => backoff * (k + 1)) ∧
    List.Chain' (fun x y => x ≤ y) (fetch_reviews oracle retries backoff).waits ∧
    (fetch_reviews oracle retries backoff).reviews = [placeholderReview] ∧
    ∀ (o2 : ReviewOracle) (r2 b2 : Nat),
      (fetch_reviews o2 r2 b2).attempts ≤ r2 := by
  have hrun : fetch_reviews oracle retries backoff =
      ⟨[placeholderReview],
       (List.range retries).map fun k : Nat => backoff * (0 + k + 1),
       retries⟩ := by
    apply frGo_all_rate_limited oracle backoff retries 0
    intro i hi
    simpa using h429 i hi
  have hzero : (List.range retries).map (fun k : Nat => backoff * (0 + k + 1)) =
      (List.range retries).map fun k : Nat => backoff * (k + 1) := by
    apply List.map_congr_left
    intro k _
    congr 1
    omega
  refine ⟨by rw [hrun], by rw [hrun, hzero], ?_, by rw [hrun],
    fun o2 r2 b2 => frGo_attempts_le o2 b2 r2 0⟩
  rw [hrun, hzero]
  apply List.Pairwise.chain'
  refine List.Pairwise.map _ ?_ (List.pairwise_lt_range retries)
  intro a b hab
  exact Nat.mul_le_mul (Nat.le_refl backoff) (by omega)

theorem c6_rate_limit_retries_witness :
    (fetch_reviews c6Oracle 3 2).attempts = 3 ∧
    (fetch_reviews c6Oracle 3 2).waits =
      (List.range 3).map (fun k : Nat => 2 * (k + 1)) ∧
    List.Chain' (fun x y => x ≤ y) (fetch_reviews c6Oracle 3 2).waits ∧
    (fetch_reviews c6Oracle 3 2).reviews = [placeholderReview] ∧
    ∀ (o2 : ReviewOracle) (r2 b2 : Nat),
      (fetch_reviews o2 r2 b2).attempts ≤ r2 :=
  c6_rate_limit_retries c6Oracle 3 2 (fun i _ => ⟨[], rfl⟩)

theorem get_all_id_collect_go :
    ∀ (rs : List (Except String (List Int))) (acc : List Int),
    rs.foldl collectIdsStep acc = acc ++ (rs.map okOrNil).flatten := by
  intro rs
  induction rs with
  | nil => intro acc; simp
  | cons r rs ih =>
    intro acc
    cases r with
    | ok l => simp [collectIdsStep, okOrNil, ih]
    | error e => simp [collectIdsStep, okOrNil, ih]

theorem get_reviews_map_collect_go :
    ∀ (rs : List (Int × Except String (List Review)))
      (acc : List (Int × List Review)),
    rs.foldl collectReviewsStep acc =
      acc ++ rs.map fun p => (p.1, reviewsOrPlaceholder p.2) := by
  intro rs
  induction rs with
  | nil => intro acc; simp
  | cons p rs ih =>
    intro acc
    cases p with
    | mk mid r =>
      cases r with
      | ok l => simp [collectReviewsStep, reviewsOrPlaceholder, ih]
      | error e => simp [collectReviewsStep, reviewsOrPlaceholder, ih]

/-- C3 amended.  In the two fan-in loops that guard `future.result()` —
`get_all_id` of `fetch_movie_ids.py` and `get_reviews_map` of
`review_database.py` — a per-item failure is absorbed: the id collector
keeps every other item's contribution and adds nothing for the failed
window (empty default), and the review collector records the single
placeholder review for the failed identifier.  Both collectors are total
functions, so the batch always completes.  The original claim also
covered the fan-in of `get_all_id` in `fetch_module_ids.py`
(lines 104–105), which has no such guard and aborts — see
`c3_counterexample_module_abort`. -/
theorem c3_amended_fan_in (xs ys : List (Except String (List Int)))
    (msg : String) (ps qs : List (Int × Except String (List Review)))
    (mid : Int) (msg2 : String) :
    get_all_id_collect (xs ++ Except.error msg :: ys) =
      get_all_id_collect xs ++ get_all_id_collect ys ∧
    get_reviews_map_collect (ps ++ (mid, Except.error msg2) :: qs) =
      get_reviews_map_collect ps ++
        (mid, [placeholderReview]) :: get_reviews_map_collect qs := by
  constructor
  · simp [get_all_id_collect, get_all_id_collect_go, okOrNil, collectIdsStep]
  · simp [get_reviews_map_collect, get_reviews_map_collect_go,
      reviewsOrPlaceholder, collectReviewsStep]

/-- C3 counterexample.  In `fetch_module_ids.py` the fan-in has no
try/except: with a first worker failure and a second worker returning
`[7, 8]`, the loop re-raises and the batch aborts — the surviving
contribution `[7, 8]` is lost, contradicting the claim that no per-item
failure ever aborts the batch and every other item's contribution is
collected. -/
theorem c3_counterexample_module_abort :
    get_all_id_module_collect [Except.error "boom", Except.ok [7, 8]] =
      Except.error "boom" := rfl

/-- C2 (code bug).  For every filesystem state, reviews mapping and
filename, `save_reviews_to_csv` raises an `AttributeError` (the `os.join`
typo for `os.path.join`) and writes no file; only the directory-creation
part of the claim holds.  This contradicts the claim that the function
writes the review table without raising an error — and contradicts the
script's own docstring ("saves the aggregated data into a CSV file") and
its final print statement. -/
theorem c2_save_reviews_always_raises (fs : Fs)
    (reviews_map : List (Int × List Review)) (filename : String) :
    (save_reviews_to_csv fs reviews_map filename).2 =
      Except.error (PyError.attributeError "module os has no attribute join") ∧
    (save_reviews_to_csv fs reviews_map filename).1.files = fs.files ∧
    (save_reviews_to_csv fs reviews_map filename).1.dirs =
      (if "../data" ∈ fs.dirs then fs.dirs else fs.dirs ++ ["../data"]) := by
  refine ⟨rfl, ?_, ?_⟩
  · by_cases h : "../data" ∈ fs.dirs <;> simp [save_reviews_to_csv, h]
  · by_cases h : "../data" ∈ fs.dirs <;> simp [save_reviews_to_csv, h]

theorem natDigitsRev_lt10 : ∀ (f n d : Nat), d ∈ natDigitsRev f n → d < 10 := by
  intro f
  induction f with
  | zero => intro n d h; simp [natDigitsRev] at h
  | succ f ih =>
    intro n d h
    by_cases hn : n = 0
    · simp [natDigitsRev, hn] at h
    · simp only [natDigitsRev, if_neg hn, List.mem_cons] at h
      rcases h with h | h
      · subst h; exact Nat.mod_lt n (by norm_num)
      · exact ih _ _ h

theorem natDigitsRev_val : ∀ (f n : Nat), n ≤ f → natVal (natDigitsRev f n) = n := by
  intro f
  induction f with
  | zero =>
    intro n h
    have : n = 0 := by omega
    subst this
    rfl
  | succ f ih =>
    intro n h
    by_cases hn : n = 0
    · subst hn; simp [natDigitsRev, natVal]
    · have hdiv : n / 10 ≤ f := by
        have h1 : n / 10 < n := Nat.div_lt_self (Nat.pos_of_ne_zero hn) (by norm_num)
        omega
      simp only [natDigitsRev, if_neg hn, natVal, List.foldr_cons]
      have := ih (n / 10) hdiv
      rw [natVal] at this
      rw [this]
      omega

theorem natDigitsRev_ne_nil (f n : Nat) (hn : n ≠ 0) (hf : n ≤ f) :
    natDigitsRev f n ≠ [] := by
  cases f with
  | zero => omega
  | succ f => simp [natDigitsRev, hn]

theorem digitChar_isDigit (d : Nat) (h : d < 10) : (digitChar d).isDigit = true := by
  interval_cases d <;> decide

theorem digitChar_toNat (d : Nat) (h : d < 10) : (digitChar d).toNat = 48 + d := by
  interval_cases d <;> decide

theorem digitChar_not_ws (d : Nat) (h : d < 10) :
    (digitChar d).isWhitespace = false := by
  interval_cases d <;> decide

theorem digitChar_ne_nl (d : Nat) (h : d < 10) : digitChar d ≠ '\n' := by
  interval_cases d <;> decide

theorem digitChar_ne_dash (d : Nat) (h : d < 10) : digitChar d ≠ '-' := by
  interval_cases d <;> decide

theorem digitChar_ne_plus (d : Nat) (h : d < 10) : digitChar d ≠ '+' := by
  interval_cases d <;> decide

theorem parseNatAux_digits : ∀ (ds : List Nat) (acc : Nat), (∀ d ∈ ds, d < 10) →
    parseNatAux (ds.map digitChar) acc =
      some (ds.foldl (fun a d => 10 * a + d) acc) := by
  intro ds
  induction ds with
  | nil => intro acc _; simp [parseNatAux]
  | cons d ds ih =>
    intro acc h
    have hd : d < 10 := h d (List.mem_cons_self d ds)
    simp only [List.map_cons, parseNatAux, digitChar_isDigit d hd, if_true,
      List.foldl_cons]
    rw [digitChar_toNat d hd, show 48 + d - 48 = d by omega]
    exact ih _ fun x hx => h x (List.mem_cons_of_mem _ hx)

theorem foldl_digits_reverse : ∀ (ds : List Nat) (acc : Nat),
    (ds.reverse).foldl (fun a d => 10 * a + d) acc =
      acc * 10 ^ ds.length + natVal ds := by
  intro ds
  induction ds with
  | nil => intro acc; simp [natVal]
  | cons d ds ih =>
    intro acc
    simp only [List.reverse_cons, List.foldl_append, List.foldl_cons,
      List.foldl_nil, ih, natVal, List.foldr_cons, List.length_cons]
    rw [natVal] at *
    ring

theorem parseNatAux_natChars (n : Nat) : parseNatAux (natChars n) 0 = some n := by
  by_cases hn : n = 0
  · subst hn; decide
  · have hrev : natChars n = ((natDigitsRev n n).reverse).map digitChar := by
      simp only [natChars, if_neg hn]
      exact (List.map_reverse digitChar (natDigitsRev n n)).symm
    rw [hrev, parseNatAux_digits _ 0
      (fun d hd => natDigitsRev_lt10 n n d (List.mem_reverse.mp hd))]
    rw [foldl_digits_reverse, natDigitsRev_val n n (Nat.le_refl n)]
    simp

theorem natChars_all_digits (n : Nat) :
    ∀ c ∈ natChars n, ∃ d, d < 10 ∧ c = digitChar d := by
  intro c hc
  by_cases hn : n = 0
  · subst hn
    simp [natChars] at hc
    exact ⟨0, by norm_num, by rw [hc]; decide⟩
  · simp only [natChars, if_neg hn, List.mem_reverse, List.mem_map] at hc
    obtain ⟨d, hd, rfl⟩ := hc
    exact ⟨d, natDigitsRev_lt10 n n d hd, rfl⟩

theorem natChars_ne_nil (n : Nat) : natChars n ≠ [] := by
  by_cases hn : n = 0
  · subst hn; simp [natChars]
  · simp only [natChars, if_neg hn]
    intro h
    apply natDigitsRev_ne_nil n n hn (Nat.le_refl n)
    have hlen := congrArg List.length h
    simp at hlen
    exact hlen

theorem pyInt_intChars : ∀ i : Int, pyInt (intChars i) = some i := by
  intro i
  cases i with
  | ofNat n =>
    obtain ⟨c, cs, hcons⟩ : ∃ c cs, natChars n = c :: cs := by
      cases h : natChars n with
      | nil => exact absurd h (natChars_ne_nil n)
      | cons c cs => exact ⟨c, cs, rfl⟩
    obtain ⟨d, hd, rfl⟩ := natChars_all_digits n c
      (by rw [hcons]; exact List.mem_cons_self _ _)
    show pyInt (natChars n) = some (Int.ofNat n)
    rw [hcons]
    simp only [pyInt, if_neg (digitChar_ne_dash d hd),
      if_neg (digitChar_ne_plus d hd)]
    rw [← hcons, parseNatAux_natChars]
    rfl
  | negSucc n =>
    show pyInt ('-' :: natChars (n + 1)) = some (Int.negSucc n)
    have hne : natChars (n + 1) ≠ [] := natChars_ne_nil (n + 1)
    simp only [pyInt, if_pos rfl, if_neg hne]
    rw [parseNatAux_natChars]
    simp [Int.negSucc_eq]

theorem splitNl_ne_nil : ∀ cs : List Char, splitNl cs ≠ [] := by
  intro cs
  induction cs with
  | nil => simp [splitNl]
  | cons c cs ih =>
    simp only [splitNl]
    by_cases hc : c = '\n'
    · simp [hc]
    · simp only [if_neg hc]
      cases h : splitNl cs with
      | nil => simp
      | cons l ls => simp

theorem splitNl_nl (cs : List Char) : splitNl ('\n' :: cs) = [] :: splitNl cs := by
  simp [splitNl]

theorem splitNl_no_nl_append : ∀ (p cs : List Char), (∀ c ∈ p, c ≠ '\n') →
    splitNl (p ++ cs) =
      match splitNl cs with
      | [] => [p]
      | l :: ls => (p ++ l) :: ls := by
  intro p
  induction p with
  | nil =>
    intro cs _
    cases h : splitNl cs with
    | nil => exact absurd h (splitNl_ne_nil cs)
    | cons l ls => simp [h]
  | cons c p ih =>
    intro cs h
    have hc : c ≠ '\n' := h c (List.mem_cons_self _ _)
    simp only [List.cons_append, splitNl, if_neg hc]
    simp only [List.append_eq]
    rw [ih cs fun x hx => h x (List.mem_cons_of_mem _ hx)]
    cases hs : splitNl cs with
    | nil => exact absurd hs (splitNl_ne_nil cs)
    | cons l ls => simp

theorem splitNl_joinNl : ∀ parts : List (List Char), parts ≠ [] →
    (∀ p ∈ parts, ∀ c ∈ p, c ≠ '\n') → splitNl (joinNl parts) = parts := by
  intro parts
  induction parts with
  | nil => intro h; exact absurd rfl h
  | cons p ps ih =>
    intro _ h
    cases ps with
    | nil =>
      have h1 := splitNl_no_nl_append p [] (h p (List.mem_cons_self _ _))
      simp only [List.append_nil] at h1
      simpa [joinNl, splitNl] using h1
    | cons q qs =>
      have hih := ih (List.cons_ne_nil q qs)
        fun x hx => h x (List.mem_cons_of_mem _ hx)
      show splitNl (p ++ '\n' :: joinNl (q :: qs)) = p :: q :: qs
      rw [splitNl_no_nl_append p _ (h p (List.mem_cons_self _ _)), splitNl_nl, hih]
      simp

theorem dropWhile_eq_self_of_none (p : Char → Bool) :
    ∀ l : List Char, (∀ c ∈ l, p c = false) → l.dropWhile p = l := by
  intro l h
  cases l with
  | nil => rfl
  | cons c cs =>
    have := h c (List.mem_cons_self _ _)
    simp [List.dropWhile_cons, this]

theorem pyStrip_eq_self (l : List Char) (h : ∀ c ∈ l, c.isWhitespace = false) :
    pyStrip l = l := by
  unfold pyStrip
  rw [dropWhile_eq_self_of_none _ l h,
    dropWhile_eq_self_of_none _ l.reverse fun c hc => h c (List.mem_reverse.mp hc)]
  exact List.reverse_reverse l

theorem intChars_ne_nil (i : Int) : intChars i ≠ [] := by
  cases i with
  | ofNat n => exact natChars_ne_nil n
  | negSucc n => simp [intChars]

theorem intChars_no_nl (i : Int) : ∀ c ∈ intChars i, c ≠ '\n' := by
  cases i with
  | ofNat n =>
    intro c hc
    obtain ⟨d, hd, rfl⟩ := natChars_all_digits n c hc
    exact digitChar_ne_nl d hd
  | negSucc n =>
    intro c hc
    simp only [intChars, List.mem_cons] at hc
    rcases hc with rfl | hc
    · decide
    · obtain ⟨d, hd, rfl⟩ := natChars_all_digits (n + 1) c hc
      exact digitChar_ne_nl d hd

theorem intChars_no_ws (i : Int) : ∀ c ∈ intChars i, c.isWhitespace = false := by
  cases i with
  | ofNat n =>
    intro c hc
    obtain ⟨d, hd, rfl⟩ := natChars_all_digits n c hc
    exact digitChar_not_ws d hd
  | negSucc n =>
    intro c hc
    simp only [intChars, List.mem_cons] at hc
    rcases hc with rfl | hc
    · decide
    · obtain ⟨d, hd, rfl⟩ := natChars_all_digits (n + 1) c hc
      exact digitChar_not_ws d hd

theorem parseLines_intChars : ∀ l : List Int, parseLines (l.map intChars) = some l := by
  intro l
  induction l with
  | nil => rfl
  | cons j js ihl => simp [parseLines, pyInt_intChars j, ihl]

/-- C10.  Writing any finite list of integer movie identifiers with
`write_movie_ids` and then parsing the resulting file content with
`read_movie_ids` returns exactly the original list.  The empty list
writes zero-length content, whose single empty line is filtered out, so
it reads back as the empty list. -/
theorem c10_write_read_roundtrip (ids : List Int) :
    read_movie_ids (write_movie_ids ids) = some ids := by
  cases ids with
  | nil => rfl
  | cons i is =>
    have hsplit : splitNl (joinNl ((i :: is).map intChars)) = (i :: is).map intChars := by
      apply splitNl_joinNl _ (by simp)
      intro p hp c hc
      obtain ⟨j, _, rfl⟩ := List.mem_map.mp hp
      exact intChars_no_nl j c hc
    show read_movie_ids (joinNl ((i :: is).map intChars)) = some (i :: is)
    unfold read_movie_ids
    rw [hsplit]
    have hstrip : ((i :: is).map intChars).map pyStrip = (i :: is).map intChars := by
      rw [List.map_map]
      apply List.map_congr_left
      intro j _
      exact pyStrip_eq_self (intChars j) (intChars_no_ws j)
    rw [hstrip]
    have hfilter : ((i :: is).map intChars).filter (fun l => !l.isEmpty) =
        (i :: is).map intChars := by
      apply List.filter_eq_self.mpr
      intro p hp
      obtain ⟨j, _, rfl⟩ := List.mem_map.mp hp
      have := intChars_ne_nil j
      simp [List.isEmpty_iff, this]
    rw [hfilter]
    exact parseLines_intChars (i :: is)
